import Mathlib

/-!
Loader base contract of `src/renderer/tvgLoadModule.h`.

A shallow embedding of `LoadModule`, `ImageLoader` and `FontLoader`.

* A C++ member function that may write to `this` becomes a function from the
  state before the call to the pair (returned value, state after the call).
* `uint16_t`/`uint64_t` fields are natural numbers; arithmetic on them is
  reduced modulo the width explicitly, and theorems state the range they need.
* `float` values are only stored and passed around by this header, never
  computed with, so they are represented by their IEEE-754 binary32 bit pattern.
* Pointers (`Paint*`, `Surface*`, `char* hashpath`, `const char* data`) are `Option`s,
  `nullptr` being `none`.
* `FileType`, `Paint`, `Surface` are declared in `tvgRender.h`, which is not part
  of the sources at hand; they are type parameters.
-/

namespace ThorVG

/-! ## Data model -/

/-- Bit pattern of a C++ `float` (IEEE-754 binary32), a number below `2 ^ 32`. -/
abbrev F32 := Nat

/-- The pattern of `0` as a `float` (`float w = 0, h = 0`). -/
def F32.zero : F32 := 0

/-- The pattern of `1.0f` (`float scale = 1.0f`). -/
def F32.one : F32 := 0x3F800000

/-- Fields of `struct LoadModule` (the intrusive list links of `INLIST_ITEM` apart). -/
structure LoadModule (FileType : Type) where
  /-- Member `uint64_t hashkey`. -/
  hashkey : Nat
  /-- Member `char* hashpath = nullptr`. -/
  hashpath : Option String
  /-- Member `FileType type`. -/
  type : FileType
  /-- Member `uint16_t sharing = 0`, the reference count. -/
  sharing : Nat
  /-- Member `bool readied = false`. -/
  readied : Bool
deriving DecidableEq, Repr

section Base

variable {FileType : Type}

/-- Constructor `LoadModule(FileType type) : type(type) {}` with the default member
initialisers. `hashkey` has no initialiser, so its value after construction is
indeterminate: it is the second argument. -/
def LoadModule.construct (type : FileType) (hashkey : Nat) : LoadModule FileType :=
  { hashkey := hashkey, hashpath := none, type := type, sharing := 0, readied := false }

/-! ## Operations of `LoadModule` -/

/-- Method `virtual bool open(const string& path) { return false; }`. -/
def LoadModule.openPath (s : LoadModule FileType) (_path : String) :
    Bool × LoadModule FileType :=
  (false, s)

/-- Method `virtual bool open(const char* data, uint32_t size, const string& rpath, bool copy)
{ return false; }`. -/
def LoadModule.openData (s : LoadModule FileType) (_data : Option (List Nat)) (_size : Nat)
    (_rpath : String) (_copy : Bool) : Bool × LoadModule FileType :=
  (false, s)

/-- Method `virtual bool resize(Paint* paint, float w, float h) { return false; }`. -/
def LoadModule.resize {Paint : Type} (s : LoadModule FileType) (_paint : Option Paint)
    (_w _h : F32) : Bool × LoadModule FileType :=
  (false, s)

/-- Method `virtual void sync() {}`. -/
def LoadModule.sync (s : LoadModule FileType) : LoadModule FileType :=
  s

/-- Method `read`:
`if (readied) return false; readied = true; return true;`. -/
def LoadModule.read (s : LoadModule FileType) : Bool × LoadModule FileType :=
  if s.readied then (false, s)
  else (true, { s with readied := true })

/-- Method `close`:
`if (sharing == 0) return true; --sharing; return false;`.
The decrement is the one of a `uint16_t`, modulo `2 ^ 16`. -/
def LoadModule.close (s : LoadModule FileType) : Bool × LoadModule FileType :=
  if s.sharing = 0 then (true, s)
  else (false, { s with sharing := (s.sharing + (2 ^ 16 - 1)) % 2 ^ 16 })

/-! ## Runs of calls -/

/-- One call observed from outside: the state before it, the value it returned,
the state after it. -/
structure Call (σ : Type) where
  pre : σ
  result : Bool
  post : σ
deriving DecidableEq, Repr

/-- Record of `n` calls of a method `f` in a row, starting in state `s`. -/
def callsOf {σ : Type} (f : σ → Bool × σ) : Nat → σ → List (Call σ)
  | 0, _ => []
  | n + 1, s => ⟨s, (f s).1, (f s).2⟩ :: callsOf f n (f s).2

/-- Record of `n` consecutive `read()` calls. -/
def readCalls (n : Nat) (s : LoadModule FileType) : List (Call (LoadModule FileType)) :=
  callsOf LoadModule.read n s

/-- Record of `n` consecutive `close()` calls. -/
def closeCalls (n : Nat) (s : LoadModule FileType) : List (Call (LoadModule FileType)) :=
  callsOf LoadModule.close n s

/-- Modelled from the spec: the registry that hands out a cached loader lives in
`tvgLoader.cpp`, which is not part of the sources at hand; the spec says that
`sharing` "is incremented by the registry on every cache hit/share". The increment
is the one of a `uint16_t`, modulo `2 ^ 16`. -/
def LoadModule.share (s : LoadModule FileType) : LoadModule FileType :=
  { s with sharing := (s.sharing + 1) % 2 ^ 16 }

/-- The state after `n` share operations in a row. -/
def shares : Nat → LoadModule FileType → LoadModule FileType
  | 0, s => s
  | n + 1, s => shares n s.share

/-- One operation on a loader with its arguments: the six virtual methods of
`LoadModule` and the share of the registry. -/
inductive Op (Paint : Type) where
  | openPath (path : String)
  | openData (data : Option (List Nat)) (size : Nat) (rpath : String) (copy : Bool)
  | resize (paint : Option Paint) (w h : F32)
  | sync
  | read
  | close
  | share

variable {Paint : Type}

/-- Run one operation: the value it returns (`none` for the two operations without
a result, `sync` and `share`) and the state after it. -/
def Op.exec (s : LoadModule FileType) : Op Paint → Option Bool × LoadModule FileType
  | .openPath path => (some (s.openPath path).1, (s.openPath path).2)
  | .openData data size rpath copy =>
      (some (s.openData data size rpath copy).1, (s.openData data size rpath copy).2)
  | .resize paint w h => (some (s.resize paint w h).1, (s.resize paint w h).2)
  | .sync => (none, s.sync)
  | .read => (some s.read.1, s.read.2)
  | .close => (some s.close.1, s.close.2)
  | .share => (none, s.share)

/-- The state after a sequence of operations. -/
def runOps : List (Op Paint) → LoadModule FileType → LoadModule FileType
  | [], s => s
  | op :: ops, s => runOps ops (op.exec s).2

/-- The values returned by a sequence of operations, in order. -/
def resultsOf : List (Op Paint) → LoadModule FileType → List (Option Bool)
  | [], _ => []
  | op :: ops, s => (op.exec s).1 :: resultsOf ops (op.exec s).2

/-- Every state a sequence of operations goes through: the initial state, then
the state after each operation. -/
def statesOf : List (Op Paint) → LoadModule FileType → List (LoadModule FileType)
  | [], s => [s]
  | op :: ops, s => s :: statesOf ops (op.exec s).2

/-- The number of share operations in a sequence of operations. -/
def sharesIn : List (Op Paint) → Nat
  | [] => 0
  | .share :: ops => sharesIn ops + 1
  | _ :: ops => sharesIn ops

/-- The number of `close()` calls that return `false` when a sequence of operations
is run from state `s`. -/
def falseCloses : List (Op Paint) → LoadModule FileType → Nat
  | [], _ => 0
  | .close :: ops, s =>
      falseCloses ops s.close.2 + (if s.close.1 = false then 1 else 0)
  | op :: ops, s => falseCloses ops (op.exec s).2

end Base

/-! ## `ImageLoader` -/

/-- Modelled from the spec: `enum ColorSpace` is declared in `tvgRender.h`, which is not
part of the sources at hand. The header uses its value `Unsupported`; the spec calls the
other values "a concrete supported value", kept here by their code. -/
inductive ColorSpace where
  | Unsupported
  | Supported (code : Nat)
deriving DecidableEq, Repr

/-- Fields of `struct ImageLoader : LoadModule`. -/
structure ImageLoader (FileType : Type) extends LoadModule FileType where
  /-- Member `float w = 0`. -/
  w : F32
  /-- Member `float h = 0`. -/
  h : F32
  /-- Member `ColorSpace cs = ColorSpace::Unsupported`. -/
  cs : ColorSpace
deriving DecidableEq, Repr

section Image

variable {FileType : Type}

/-- Constructor `ImageLoader(FileType type) : LoadModule(type) {}` with the default
member initialisers. -/
def ImageLoader.construct (type : FileType) (hashkey : Nat) : ImageLoader FileType :=
  { toLoadModule := LoadModule.construct type hashkey,
    w := F32.zero, h := F32.zero, cs := ColorSpace.Unsupported }

/-- Method `virtual bool animatable() { return false; }`. -/
def ImageLoader.animatable (l : ImageLoader FileType) : Bool × ImageLoader FileType :=
  (false, l)

/-- Method `virtual Surface* bitmap() { return nullptr; }`. -/
def ImageLoader.bitmap (Surface : Type) (l : ImageLoader FileType) :
    Option Surface × ImageLoader FileType :=
  (none, l)

/-- Method `virtual Paint* paint() { return nullptr; }`. -/
def ImageLoader.paint (Paint : Type) (l : ImageLoader FileType) :
    Option Paint × ImageLoader FileType :=
  (none, l)

/-- The inherited `resize`, not overridden by `ImageLoader`: the base method runs on
the `LoadModule` part of the object. -/
def ImageLoader.resize {Paint : Type} (l : ImageLoader FileType) (paint : Option Paint)
    (w h : F32) : Bool × ImageLoader FileType :=
  ((l.toLoadModule.resize paint w h).1,
    { l with toLoadModule := (l.toLoadModule.resize paint w h).2 })

/-- The loader gives a meaningful (non-null) result from exactly one of `bitmap()`
and `paint()`. -/
def ImageLoader.exactlyOneCapability (Surface Paint : Type) (l : ImageLoader FileType) :
    Prop :=
  ((l.bitmap Surface).1.isSome = true ∧ (l.paint Paint).1.isSome = false)
    ∨ ((l.bitmap Surface).1.isSome = false ∧ (l.paint Paint).1.isSome = true)

/-- The loader gives a meaningful (non-null) result from at most one of `bitmap()`
and `paint()`: never from both. -/
def ImageLoader.atMostOneCapability (Surface Paint : Type) (l : ImageLoader FileType) :
    Prop :=
  ¬ ((l.bitmap Surface).1.isSome = true ∧ (l.paint Paint).1.isSome = true)

/-- An operation inherited from `LoadModule`, called on an `ImageLoader`, which
overrides none of them: the base method runs on the `LoadModule` part of the object
and the members `w`, `h`, `cs` are out of its reach. -/
def ImageLoader.exec {Paint : Type} (l : ImageLoader FileType) (op : Op Paint) :
    Option Bool × ImageLoader FileType :=
  ((op.exec l.toLoadModule).1, { l with toLoadModule := (op.exec l.toLoadModule).2 })

/-- The state of an `ImageLoader` after a sequence of inherited operations. -/
def ImageLoader.runOps {Paint : Type} :
    List (Op Paint) → ImageLoader FileType → ImageLoader FileType
  | [], l => l
  | op :: ops, l => ImageLoader.runOps ops (l.exec op).2

end Image

/-! ## `FontLoader` -/

/-- Fields of `struct FontLoader : LoadModule`. -/
structure FontLoader (FileType : Type) extends LoadModule FileType where
  /-- Member `float scale = 1.0f`. -/
  scale : F32
deriving DecidableEq, Repr

section Font

variable {FileType Shape : Type}

/-- Constructor `FontLoader(FileType type) : LoadModule(type) {}` with the default
member initialiser. -/
def FontLoader.construct (type : FileType) (hashkey : Nat) : FontLoader FileType :=
  { toLoadModule := LoadModule.construct type hashkey, scale := F32.one }

/-- Modelled from the spec: `request` is pure virtual in the header
(`virtual bool request(Shape* shape, char* text, bool italic = false) = 0;`) and the
font decoders that define it are not part of the sources at hand. The spec: it "shapes
`text` into `targetShape` at the loader's current `scale`, applying `italicHint` as a
style request. Returns false if shaping fails (missing glyphs, corrupt tables)"; "on
failure `targetShape` must be left exactly as it was before the call".
The decoder is the argument `shaper`: from the scale, the text, the italic hint and the
target shape it gives the shaped target, or fails. The result is the returned value
and the target shape after the call. -/
def FontLoader.request (shaper : F32 → String → Bool → Shape → Option Shape)
    (l : FontLoader FileType) (shape : Shape) (text : String) (italic : Bool) :
    Bool × Shape :=
  match shaper l.scale text italic shape with
  | none => (false, shape)
  | some shaped => (true, shaped)

end Font


/-! ## Lemmas on `read` -/

section ReadLemmas

variable {FileType : Type}

theorem read_of_readied (s : LoadModule FileType) (h : s.readied = true) :
    s.read = (false, s) := by
  simp [LoadModule.read, h]

theorem read_of_not_readied (s : LoadModule FileType) (h : s.readied = false) :
    s.read = (true, { s with readied := true }) := by
  simp [LoadModule.read, h]

theorem readCalls_results_of_readied (n : Nat) (s : LoadModule FileType)
    (h : s.readied = true) :
    (readCalls n s).map Call.result = List.replicate n false := by
  induction n with
  | zero => rfl
  | succ k ih =>
    simp only [readCalls, callsOf, List.map_cons, List.replicate_succ] at ih ⊢
    rw [read_of_readied s h]
    exact congrArg _ ih

theorem readCalls_frame_of_readied (n : Nat) (s : LoadModule FileType)
    (h : s.readied = true) :
    ∀ c ∈ readCalls n s, c.post = c.pre := by
  induction n with
  | zero => intro c hc; simp [readCalls, callsOf] at hc
  | succ k ih =>
    intro c hc
    simp only [readCalls, callsOf, List.mem_cons] at ih hc
    rw [read_of_readied s h] at hc
    rcases hc with hc | hc
    · subst hc; rfl
    · exact ih c hc

end ReadLemmas

/-! ## Lemmas on `close` and `share` -/

section CloseLemmas

variable {FileType : Type}

theorem close_of_zero (s : LoadModule FileType) (h : s.sharing = 0) :
    s.close = (true, s) := by
  simp [LoadModule.close, h]

theorem close_of_pos (s : LoadModule FileType) (h : s.sharing ≠ 0)
    (hs : s.sharing < 2 ^ 16) :
    s.close = (false, { s with sharing := s.sharing - 1 }) := by
  have hmod : (s.sharing + (2 ^ 16 - 1)) % 2 ^ 16 = s.sharing - 1 := by omega
  unfold LoadModule.close
  rw [if_neg h, hmod]

theorem share_of_lt (s : LoadModule FileType) (hs : s.sharing + 1 < 2 ^ 16) :
    s.share = { s with sharing := s.sharing + 1 } := by
  have hmod : (s.sharing + 1) % 2 ^ 16 = s.sharing + 1 := Nat.mod_eq_of_lt hs
  unfold LoadModule.share
  rw [hmod]

theorem shares_of_lt (n : Nat) (s : LoadModule FileType) (hs : s.sharing + n < 2 ^ 16) :
    shares n s = { s with sharing := s.sharing + n } := by
  induction n generalizing s with
  | zero => rfl
  | succ k ih =>
    have h1 : s.sharing + 1 < 2 ^ 16 := by omega
    simp only [shares]
    rw [share_of_lt s h1, ih _ (by simp only; omega)]
    simp only [LoadModule.mk.injEq, true_and, and_true]
    omega

theorem closeCalls_results (k : Nat) (s : LoadModule FileType) (hk : s.sharing = k)
    (hs : k < 2 ^ 16) :
    (closeCalls (k + 1) s).map Call.result = List.replicate k false ++ [true] := by
  induction k generalizing s with
  | zero =>
    simp only [closeCalls, callsOf, List.map_cons, List.map_nil, List.replicate_zero,
      List.nil_append]
    rw [close_of_zero s hk]
  | succ j ih =>
    have hne : s.sharing ≠ 0 := by omega
    have hlt : s.sharing < 2 ^ 16 := by omega
    have hstep := close_of_pos s hne hlt
    have hrec := ih { s with sharing := s.sharing - 1 } (by simp only; omega) (by omega)
    simp only [closeCalls] at hrec ⊢
    rw [callsOf, hstep, List.map_cons, hrec]
    rfl

end CloseLemmas

/-! ## Lemmas on runs of operations -/

section RunLemmas

variable {FileType Paint : Type}

theorem exec_readied (op : Op Paint) (s : LoadModule FileType) (h : s.readied = true) :
    (op.exec s).2.readied = true := by
  cases op with
  | openPath path => exact h
  | openData data size rpath copy => exact h
  | resize paint w h2 => exact h
  | sync => exact h
  | read => simp [Op.exec, read_of_readied s h, h]
  | close =>
    by_cases h0 : s.sharing = 0
    · simp [Op.exec, LoadModule.close, h0, h]
    · simp [Op.exec, LoadModule.close, h0, h]
  | share => exact h

theorem runOps_readied (ops : List (Op Paint)) (s : LoadModule FileType)
    (h : s.readied = true) : (runOps ops s).readied = true := by
  induction ops generalizing s with
  | nil => exact h
  | cons op rest ih => exact ih _ (exec_readied op s h)

theorem length_statesOf (ops : List (Op Paint)) (s : LoadModule FileType) :
    (statesOf ops s).length = ops.length + 1 := by
  induction ops generalizing s with
  | nil => rfl
  | cons op rest ih => simp [statesOf, ih]

theorem statesOf_readied (ops : List (Op Paint)) (s : LoadModule FileType)
    (h : s.readied = true) :
    (statesOf ops s).map LoadModule.readied = List.replicate (ops.length + 1) true := by
  induction ops generalizing s with
  | nil => simp [statesOf, h]
  | cons op rest ih =>
    simp only [statesOf, List.map_cons, List.length_cons, List.replicate_succ, h]
    exact congrArg _ (ih _ (exec_readied op s h))

theorem statesOf_readied_shape (ops : List (Op Paint)) (s : LoadModule FileType) :
    ∃ i j, i + j = ops.length + 1 ∧
      (statesOf ops s).map LoadModule.readied
        = List.replicate i false ++ List.replicate j true := by
  induction ops generalizing s with
  | nil =>
    cases hr : s.readied with
    | false => exact ⟨1, 0, rfl, by simp [statesOf, hr]⟩
    | true => exact ⟨0, 1, rfl, by simp [statesOf, hr]⟩
  | cons op rest ih =>
    cases hr : s.readied with
    | true =>
      refine ⟨0, (op :: rest).length + 1, by simp, ?_⟩
      simpa using statesOf_readied (op :: rest) s hr
    | false =>
      obtain ⟨i, j, hij, htr⟩ := ih (op.exec s).2
      refine ⟨i + 1, j, by simp only [List.length_cons]; omega, ?_⟩
      simp only [statesOf, List.map_cons, hr, htr, List.replicate_succ, List.cons_append]

end RunLemmas

/-! ## Lemmas on the fields no operation writes -/

section FrameLemmas

variable {FileType Paint : Type}

theorem exec_type (op : Op Paint) (s : LoadModule FileType) :
    (op.exec s).2.type = s.type := by
  cases op with
  | openPath path => rfl
  | openData data size rpath copy => rfl
  | resize paint w h => rfl
  | sync => rfl
  | read =>
    cases hr : s.readied with
    | false => simp [Op.exec, LoadModule.read, hr]
    | true => simp [Op.exec, LoadModule.read, hr]
  | close =>
    by_cases h0 : s.sharing = 0
    · simp [Op.exec, LoadModule.close, h0]
    · simp [Op.exec, LoadModule.close, h0]
  | share => rfl

theorem runOps_type (ops : List (Op Paint)) (s : LoadModule FileType) :
    (runOps ops s).type = s.type := by
  induction ops generalizing s with
  | nil => rfl
  | cons op rest ih =>
    simp only [runOps]
    rw [ih, exec_type]

theorem image_exec_fields (op : Op Paint) (l : ImageLoader FileType) :
    (l.exec op).2.cs = l.cs ∧ (l.exec op).2.w = l.w ∧ (l.exec op).2.h = l.h :=
  ⟨rfl, rfl, rfl⟩

theorem image_runOps_fields (ops : List (Op Paint)) (l : ImageLoader FileType) :
    (ImageLoader.runOps ops l).cs = l.cs ∧ (ImageLoader.runOps ops l).w = l.w
      ∧ (ImageLoader.runOps ops l).h = l.h := by
  induction ops generalizing l with
  | nil => exact ⟨rfl, rfl, rfl⟩
  | cons op rest ih =>
    simp only [ImageLoader.runOps]
    obtain ⟨h1, h2, h3⟩ := ih (l.exec op).2
    obtain ⟨g1, g2, g3⟩ := image_exec_fields op l
    exact ⟨h1.trans g1, h2.trans g2, h3.trans g3⟩

end FrameLemmas

/-! ## Lemmas on the reference count along a run -/

section CountLemmas

variable {FileType Paint : Type}

theorem sharesIn_le_length (ops : List (Op Paint)) : sharesIn ops ≤ ops.length := by
  induction ops with
  | nil => exact Nat.le_refl 0
  | cons op rest ih => cases op <;> simp only [sharesIn, List.length_cons] <;> omega

theorem read_sharing (s : LoadModule FileType) : s.read.2.sharing = s.sharing := by
  cases hr : s.readied with
  | false => simp [LoadModule.read, hr]
  | true => simp [LoadModule.read, hr]

/-- How one operation moves the three counters: `sharing`, the shares so far and the
`close()` calls so far that returned `false`. -/
theorem count_step (op : Op Paint) (s : LoadModule FileType)
    (hs : s.sharing + sharesIn [op] ≤ 65535) :
    (∀ p : List (Op Paint),
        (op.exec s).2.sharing + falseCloses (op :: p) s + sharesIn p
          = s.sharing + sharesIn (op :: p) + falseCloses p (op.exec s).2) := by
  intro p
  cases op with
  | openPath path =>
    simp only [Op.exec, LoadModule.openPath, falseCloses, sharesIn]
    omega
  | openData data size rpath copy =>
    simp only [Op.exec, LoadModule.openData, falseCloses, sharesIn]
    omega
  | resize paint w h =>
    simp only [Op.exec, LoadModule.resize, falseCloses, sharesIn]
    omega
  | sync =>
    simp only [Op.exec, LoadModule.sync, falseCloses, sharesIn]
    omega
  | read =>
    simp only [Op.exec, falseCloses, sharesIn, read_sharing]
    omega
  | close =>
    simp only [sharesIn] at hs
    by_cases h0 : s.sharing = 0
    · simp only [Op.exec, falseCloses, sharesIn, close_of_zero s h0]
      simp only [Bool.true_eq_false, if_false]
      omega
    · rw [show (Op.close : Op Paint).exec s = (some s.close.1, s.close.2) from rfl]
      simp only [falseCloses, sharesIn, close_of_pos s h0 (by omega)]
      simp only [if_true]
      omega
  | share =>
    simp only [sharesIn] at hs
    rw [show (Op.share : Op Paint).exec s = (none, s.share) from rfl]
    simp only [falseCloses, sharesIn, Op.exec, share_of_lt s (by omega)]
    omega

theorem sharing_count (ops : List (Op Paint)) (s : LoadModule FileType)
    (hb : ∀ p q, ops = p ++ q → s.sharing + sharesIn p ≤ falseCloses p s + 65535) :
    (runOps ops s).sharing + falseCloses ops s = s.sharing + sharesIn ops := by
  induction ops generalizing s with
  | nil => rfl
  | cons op rest ih =>
    have h0 := hb [] (op :: rest) rfl
    simp only [sharesIn, falseCloses] at h0
    have h := hb [op] rest rfl
    have h1 : s.sharing + sharesIn [op] ≤ 65535 := by
      cases op <;> simp only [sharesIn, falseCloses] at h ⊢ <;> omega
    have hstep := count_step op s h1
    have hrec := ih (op.exec s).2 (fun p q hpq => by
      have h2 := hb (op :: p) q (by rw [hpq]; rfl)
      have e := hstep p
      omega)
    have e := hstep rest
    simp only [runOps]
    omega

end CountLemmas

/-! ## Lemmas on `close` at zero and on the wrap of `share` -/

section WrapLemmas

variable {FileType : Type}

theorem close_true_iff (s : LoadModule FileType) : s.close.1 = true ↔ s.sharing = 0 := by
  by_cases h0 : s.sharing = 0
  · simp [LoadModule.close, h0]
  · simp [LoadModule.close, h0]

theorem closeCalls_of_zero (k : Nat) (s : LoadModule FileType) (h0 : s.sharing = 0) :
    closeCalls k s = List.replicate k ⟨s, true, s⟩ := by
  induction k with
  | zero => rfl
  | succ j ih =>
    simp only [closeCalls] at ih
    simp only [closeCalls, callsOf, List.replicate_succ, close_of_zero s h0, ih]

theorem shares_succ (n : Nat) (s : LoadModule FileType) :
    shares (n + 1) s = (shares n s).share := by
  induction n generalizing s with
  | zero => rfl
  | succ k ih =>
    rw [shares, ih s.share]
    rfl

end WrapLemmas

/-! ## Claims -/

section Claims

variable {FileType : Type}

/-- C1: for every `N ≥ 1` and every freshly constructed loader, `N` calls of the base
`read()` in a row return `true` on the first call and `false` on each of the other
`N - 1` calls, and every call that returns `false` leaves the whole loader state as it
was before that call. -/
theorem read_once_from_fresh (type : FileType) (hashkey : Nat) (N : Nat) (hN : 1 ≤ N) :
    (readCalls N (LoadModule.construct type hashkey)).map Call.result
        = true :: List.replicate (N - 1) false
      ∧ ∀ c ∈ readCalls N (LoadModule.construct type hashkey),
          c.result = false → c.post = c.pre := by
  obtain ⟨k, rfl⟩ : ∃ k, N = k + 1 := ⟨N - 1, by omega⟩
  have hfresh : (LoadModule.construct type hashkey).readied = false := rfl
  have hstep := read_of_not_readied (LoadModule.construct type hashkey) hfresh
  refine ⟨?_, ?_⟩
  · simp only [readCalls, callsOf, List.map_cons, Nat.add_sub_cancel]
    rw [hstep]
    exact congrArg _ (readCalls_results_of_readied k _ rfl)
  · intro c hc hres
    simp only [readCalls, callsOf, List.mem_cons] at hc
    rw [hstep] at hc
    rcases hc with hc | hc
    · subst hc; simp at hres
    · exact readCalls_frame_of_readied k _ rfl c hc

/-- Witness of C1: three calls of `read()` on a fresh loader. -/
theorem read_once_from_fresh_witness :
    1 ≤ 3 ∧
    ((readCalls 3 (LoadModule.construct (7 : Nat) 42)).map Call.result
        = true :: List.replicate (3 - 1) false
      ∧ ∀ c ∈ readCalls 3 (LoadModule.construct (7 : Nat) 42),
          c.result = false → c.post = c.pre) :=
  ⟨by decide, read_once_from_fresh (7 : Nat) 42 3 (by decide)⟩

/-- C2: for every loader state, the base `close()` returns `true` if and only if
`sharing` was `0` when it was called; when it returns `true` the state is unchanged, and
when it returns `false`, `sharing` has gone down by exactly one (no wrap-around of the
`uint16_t`) and every other field is unchanged. -/
theorem close_contract (s : LoadModule FileType) (hs : s.sharing < 2 ^ 16) :
    (s.close.1 = true ↔ s.sharing = 0)
      ∧ (s.close.1 = true → s.close.2 = s)
      ∧ (s.close.1 = false →
          s.close.2.sharing + 1 = s.sharing
            ∧ s.close.2.hashkey = s.hashkey ∧ s.close.2.hashpath = s.hashpath
            ∧ s.close.2.type = s.type ∧ s.close.2.readied = s.readied) := by
  by_cases h0 : s.sharing = 0
  · rw [close_of_zero s h0]
    simp [h0]
  · rw [close_of_pos s h0 hs]
    refine ⟨by simp [h0], by simp, fun _ => ⟨?_, rfl, rfl, rfl, rfl⟩⟩
    simp only
    omega

/-- Witness of C2: a loader held twice more, of which `close()` releases one. -/
theorem close_contract_witness :
    (3 : Nat) < 2 ^ 16 ∧
    (((LoadModule.mk 9 none (7 : Nat) 3 true).close.1 = true ↔ (3 : Nat) = 0)
      ∧ (LoadModule.mk 9 none (7 : Nat) 3 true).close.2
          = LoadModule.mk 9 none (7 : Nat) 2 true) :=
  ⟨by decide,
    (close_contract (LoadModule.mk 9 none (7 : Nat) 3 true) (by decide)).1, by decide⟩

/-- C3: for every `M` with `0 ≤ M ≤ 65535`, after `M` share operations on a freshly
constructed loader, `M + 1` calls of `close()` in a row return `false` on each of the
first `M` calls and `true` on the last one, so `true` exactly once; for `M = 0` the
first `close()` of a fresh loader returns `true`. -/
theorem close_true_on_last_release (type : FileType) (hashkey : Nat) (M : Nat)
    (hM : M ≤ 65535) :
    (closeCalls (M + 1) (shares M (LoadModule.construct type hashkey))).map Call.result
        = List.replicate M false ++ [true]
      ∧ ((closeCalls (M + 1) (shares M (LoadModule.construct type hashkey))).map
          Call.result).count true = 1
      ∧ (LoadModule.construct type hashkey).close.1 = true := by
  have hsh : shares M (LoadModule.construct type hashkey)
      = { LoadModule.construct type hashkey with sharing := M } := by
    rw [shares_of_lt M _ (by simp only [LoadModule.construct]; omega)]
    simp [LoadModule.construct]
  have hres := closeCalls_results M (shares M (LoadModule.construct type hashkey))
    (by rw [hsh]) (by omega)
  refine ⟨hres, ?_, rfl⟩
  rw [hres]
  simp [List.count_replicate]

/-- Witness of C3: two shares, then three calls of `close()`. -/
theorem close_true_on_last_release_witness :
    2 ≤ 65535 ∧
    (closeCalls (2 + 1) (shares 2 (LoadModule.construct (7 : Nat) 42))).map Call.result
      = [false, false, true] :=
  ⟨by decide, (close_true_on_last_release (7 : Nat) 42 2 (by decide)).1⟩

/-- C4: `readied` is a one-way flag. For every loader state and every finite sequence
of base operations (`open` in either form, `resize`, `sync`, `read`, `close`, and the
share of the registry), if `readied` is true before the sequence it is true after it;
and along any run from a freshly constructed loader the values of `readied` are some
`false`s followed by some `true`s, so it changes at most once, from false to true. -/
theorem readied_one_way (Paint : Type) (ops : List (Op Paint)) :
    (∀ s : LoadModule FileType, s.readied = true → (runOps ops s).readied = true)
      ∧ ∀ (type : FileType) (hashkey : Nat), ∃ i j, i + j = ops.length + 1 ∧
          (statesOf ops (LoadModule.construct type hashkey)).map LoadModule.readied
            = List.replicate i false ++ List.replicate j true :=
  ⟨fun s h => runOps_readied ops s h,
    fun type hashkey => statesOf_readied_shape ops (LoadModule.construct type hashkey)⟩

/-- Witness of C4: a loader that was read stays readied through a run that reads
again, closes, opens and shares. -/
theorem readied_one_way_witness :
    (LoadModule.mk 9 none (7 : Nat) 1 true).readied = true ∧
    (runOps [Op.read, Op.close, Op.close, Op.openPath "a.png", Op.share, Op.sync,
        (Op.resize none 0 0 : Op Unit)] (LoadModule.mk 9 none (7 : Nat) 1 true)).readied
      = true :=
  ⟨rfl, (readied_one_way Unit _).1 (LoadModule.mk 9 none (7 : Nat) 1 true) rfl⟩

/-- C5: for every loader state and every argument, both base `open` entry points
(`open(path)` and `open(data, size, rpath, copy)`, for either value of `copy`) return
`false` and leave every field of the loader unchanged. -/
theorem open_fails_without_effect (s : LoadModule FileType) (path : String)
    (data : Option (List Nat)) (size : Nat) (rpath : String) (copy : Bool) :
    s.openPath path = (false, s) ∧ s.openData data size rpath copy = (false, s) :=
  ⟨rfl, rfl⟩

/-- C6, counterexample: the `ImageLoader` of the header, constructed as it is with its
default `bitmap()` and `paint()`, does not give a meaningful result from exactly one of
the two: it gives none from either. -/
theorem base_image_loader_not_exactly_one :
    ¬ ImageLoader.exactlyOneCapability Unit Unit (ImageLoader.construct (0 : Nat) 0) := by
  simp [ImageLoader.exactlyOneCapability, ImageLoader.bitmap, ImageLoader.paint]

/-- C6, as amended: every `ImageLoader` of the header, in every state, gives a meaningful
result from at most one of `bitmap()` and `paint()`, never from both; with the default
`bitmap()` and `paint()` it gives a meaningful result from neither. -/
theorem image_loader_at_most_one (Surface Paint : Type) (l : ImageLoader FileType) :
    ImageLoader.atMostOneCapability Surface Paint l
      ∧ (l.bitmap Surface).1.isSome = false ∧ (l.paint Paint).1.isSome = false := by
  simp [ImageLoader.atMostOneCapability, ImageLoader.bitmap, ImageLoader.paint]

/-- C7: for every `ImageLoader` that does not override them, in every state,
`animatable()` returns `false`, `bitmap()` returns null and `paint()` returns null, and
none of the three queries changes the loader state. -/
theorem image_loader_defaults (Surface Paint : Type) (l : ImageLoader FileType) :
    l.animatable = (false, l) ∧ l.bitmap Surface = (none, l) ∧ l.paint Paint = (none, l) :=
  ⟨rfl, rfl, rfl⟩

/-- C8: for every font loader, target shape and text, if `request(shape, text, italic)`
returns `false` then the target shape after the call is equal to the target shape
before the call. -/
theorem request_failure_keeps_shape {Shape : Type}
    (shaper : F32 → String → Bool → Shape → Option Shape) (l : FontLoader FileType)
    (shape : Shape) (text : String) (italic : Bool)
    (hfail : (l.request shaper shape text italic).1 = false) :
    (l.request shaper shape text italic).2 = shape := by
  unfold FontLoader.request at hfail ⊢
  cases hsh : shaper l.scale text italic shape with
  | none => rfl
  | some shaped => simp [hsh] at hfail

/-- Witness of C8: a decoder without a glyph for `?` fails on the text `a?` and the
target shape, which held two points, still holds them. -/
theorem request_failure_keeps_shape_witness :
    ((FontLoader.construct (7 : Nat) 42).request
        (fun _ text _ shape =>
          if text.toList.contains '?' then none else some (shape ++ text.toList.map Char.toNat))
        [10, 20] "a?" true).1 = false
    ∧ ((FontLoader.construct (7 : Nat) 42).request
        (fun _ text _ shape =>
          if text.toList.contains '?' then none else some (shape ++ text.toList.map Char.toNat))
        [10, 20] "a?" true).2 = [10, 20] :=
  ⟨by decide, request_failure_keeps_shape _ _ _ _ _ (by decide)⟩

/-- C9: for every loader state, target paint and sizes `w`, `h`, the base
`resize(paint, w, h)` returns `false` and leaves the loader state unchanged, the
nominal `w` and `h` of an `ImageLoader` included. -/
theorem resize_not_supported (Paint : Type) (s : LoadModule FileType)
    (l : ImageLoader FileType) (paint : Option Paint) (w h : F32) :
    s.resize paint w h = (false, s)
      ∧ l.resize paint w h = (false, l)
      ∧ (l.resize paint w h).2.w = l.w ∧ (l.resize paint w h).2.h = l.h :=
  ⟨rfl, rfl, rfl, rfl⟩

/-- C10: for every loader state, the base `sync()` is a no-op: the state after it is
the state before it, so `read()` and `close()` after it, and any further sequence of
operations, return what they would have returned and end in the same state as
without it. -/
theorem sync_noop (Paint : Type) (s : LoadModule FileType) :
    s.sync = s
      ∧ s.sync.read = s.read ∧ s.sync.close = s.close
      ∧ ∀ ops : List (Op Paint),
          resultsOf ops s.sync = resultsOf ops s ∧ runOps ops s.sync = runOps ops s
            ∧ resultsOf (Op.sync :: ops) s = none :: resultsOf ops s
            ∧ runOps (Op.sync :: ops) s = runOps ops s :=
  ⟨rfl, rfl, rfl, fun _ => ⟨rfl, rfl, rfl, rfl⟩⟩

/-- C11: the decoder-kind tag is immutable after construction. For every tag `t`, a
loader constructed with `t` has `type = t`, and after every finite sequence of base
operations (`open` in either form, `resize`, `sync`, `read`, `close`; the share of the
registry may be among them as well) its `type` is still `t`. -/
theorem type_immutable (Paint : Type) (t : FileType) (hashkey : Nat)
    (ops : List (Op Paint)) :
    (LoadModule.construct t hashkey).type = t
      ∧ (runOps ops (LoadModule.construct t hashkey)).type = t
      ∧ ∀ s ∈ statesOf ops (LoadModule.construct t hashkey), s.type = t := by
  refine ⟨rfl, runOps_type ops _, ?_⟩
  suffices h : ∀ (l : List (Op Paint)) (s0 : LoadModule FileType),
      ∀ s ∈ statesOf l s0, s.type = s0.type from h ops _
  intro l
  induction l with
  | nil =>
    intro s0 s hs
    simp only [statesOf, List.mem_singleton] at hs
    rw [hs]
  | cons op rest ih =>
    intro s0 s hs
    simp only [statesOf, List.mem_cons] at hs
    rcases hs with hs | hs
    · rw [hs]
    · rw [ih _ s hs, exec_type]

/-- C12: a freshly constructed `ImageLoader` has colour space `Unsupported` and nominal
size `w = 0`, `h = 0`, and after any finite sequence of the base `open`, `resize`,
`sync`, `read` and `close` calls (none of which `ImageLoader` overrides) the colour
space is still `Unsupported`. -/
theorem image_loader_colour_space (Paint : Type) (t : FileType) (hashkey : Nat)
    (ops : List (Op Paint)) :
    (ImageLoader.construct t hashkey).cs = ColorSpace.Unsupported
      ∧ (ImageLoader.construct t hashkey).w = F32.zero
      ∧ (ImageLoader.construct t hashkey).h = F32.zero
      ∧ (ImageLoader.runOps ops (ImageLoader.construct t hashkey)).cs
          = ColorSpace.Unsupported :=
  ⟨rfl, rfl, rfl, (image_runOps_fields ops (ImageLoader.construct t hashkey)).1⟩

/-- C13: counting invariant of the reference count. For every finite sequence of
share and `close()` operations (other base operations may be among them) applied to a
fresh loader in which the count of holders, shares minus `close()` calls that returned
`false`, never exceeds 65535: after each part `p` of the sequence run so far, `sharing`
equals the shares in `p` minus the `close()` calls in `p` that returned `false`, this
difference is never negative, and a `close()` of the sequence returns `true` if and
only if the difference is `0` immediately before it. -/
theorem sharing_counts_holders (Paint : Type) (type : FileType) (hashkey : Nat)
    (ops : List (Op Paint))
    (hbound : ∀ p q, ops = p ++ q →
        sharesIn p ≤ falseCloses p (LoadModule.construct type hashkey) + 65535) :
    (∀ p q, ops = p ++ q →
        (runOps p (LoadModule.construct type hashkey)).sharing
            + falseCloses p (LoadModule.construct type hashkey) = sharesIn p
          ∧ falseCloses p (LoadModule.construct type hashkey) ≤ sharesIn p)
      ∧ ∀ p q, ops = p ++ Op.close :: q →
          ((runOps p (LoadModule.construct type hashkey)).close.1 = true
            ↔ sharesIn p = falseCloses p (LoadModule.construct type hashkey)) := by
  have key : ∀ p q, ops = p ++ q →
      (runOps p (LoadModule.construct type hashkey)).sharing
        + falseCloses p (LoadModule.construct type hashkey) = sharesIn p := by
    intro p q hpq
    have h := sharing_count p (LoadModule.construct type hashkey) (fun p1 q1 h1 => by
      have hb := hbound p1 (q1 ++ q) (by rw [hpq, h1, List.append_assoc])
      simp only [LoadModule.construct] at hb ⊢
      omega)
    simp only [LoadModule.construct] at h ⊢
    omega
  refine ⟨fun p q hpq => ⟨key p q hpq, ?_⟩, fun p q hpq => ?_⟩
  · have h := key p q hpq
    omega
  · have h := key p (Op.close :: q) hpq
    rw [close_true_iff]
    omega

/-- Witness of C13: two shares, a release, a read, two more releases (the last of
which finds the count at zero) and a share. -/
theorem sharing_counts_holders_witness :
    (runOps [Op.share, Op.share, Op.close, (Op.read : Op Unit)]
        (LoadModule.construct (7 : Nat) 42)).sharing
      + falseCloses [Op.share, Op.share, Op.close, (Op.read : Op Unit)]
        (LoadModule.construct (7 : Nat) 42)
      = sharesIn [Op.share, Op.share, Op.close, (Op.read : Op Unit)]
    ∧ ((runOps [Op.share, Op.share, Op.close, (Op.read : Op Unit), Op.close]
        (LoadModule.construct (7 : Nat) 42)).close.1 = true
      ↔ sharesIn [Op.share, Op.share, Op.close, (Op.read : Op Unit), Op.close]
        = falseCloses [Op.share, Op.share, Op.close, (Op.read : Op Unit), Op.close]
          (LoadModule.construct (7 : Nat) 42)) :=
  have hb : ∀ p q : List (Op Unit),
      [Op.share, Op.share, Op.close, Op.read, Op.close, Op.close, Op.share] = p ++ q →
        sharesIn p ≤ falseCloses p (LoadModule.construct (7 : Nat) 42) + 65535 :=
    fun p q h => by
      have hl := congrArg List.length h
      have hp := sharesIn_le_length p
      simp only [List.length_cons, List.length_nil, List.length_append] at hl
      omega
  ⟨((sharing_counts_holders Unit (7 : Nat) 42 _ hb).1
      [Op.share, Op.share, Op.close, Op.read] [Op.close, Op.close, Op.share] rfl).1,
    (sharing_counts_holders Unit (7 : Nat) 42 _ hb).2
      [Op.share, Op.share, Op.close, Op.read, Op.close] [Op.share] rfl⟩

/-- C14: `close()` is idempotent at zero. For every loader state with `sharing = 0` and
every `k` (every `k ≥ 1` in particular), `k` calls of `close()` in a row all return
`true` and leave the state unchanged; so once `close()` has returned `true`, every
later `close()` without a share in between returns `true` as well. -/
theorem close_idempotent_at_zero (s : LoadModule FileType) (k : Nat) :
    (s.sharing = 0 →
        (closeCalls k s).map Call.result = List.replicate k true
          ∧ ∀ c ∈ closeCalls k s, c.pre = s ∧ c.post = s)
      ∧ (s.close.1 = true →
          (closeCalls k s.close.2).map Call.result = List.replicate k true) := by
  have hzero : s.sharing = 0 →
      (closeCalls k s).map Call.result = List.replicate k true
        ∧ ∀ c ∈ closeCalls k s, c.pre = s ∧ c.post = s := by
    intro h0
    rw [closeCalls_of_zero k s h0]
    refine ⟨by simp, fun c hc => ?_⟩
    rw [List.eq_of_mem_replicate hc]
    exact ⟨rfl, rfl⟩
  refine ⟨hzero, fun ht => ?_⟩
  have h0 := (close_true_iff s).1 ht
  rw [close_of_zero s h0]
  exact (hzero h0).1

/-- Witness of C14: four calls of `close()` on a loader that was read and has no
holder left. -/
theorem close_idempotent_at_zero_witness :
    (LoadModule.mk 9 none (7 : Nat) 0 true).sharing = 0 ∧
    (closeCalls 4 (LoadModule.mk 9 none (7 : Nat) 0 true)).map Call.result
      = [true, true, true, true] :=
  ⟨rfl, ((close_idempotent_at_zero (LoadModule.mk 9 none (7 : Nat) 0 true) 4).1 rfl).1⟩

/-- C15: `read()` and `close()` act on disjoint state and commute. For every loader
state, `read()` changes no field other than `readied`, `close()` changes no field other
than `sharing`, and `read()` then `close()` ends in the same state with the same two
returned values as `close()` then `read()`; `close()` leaves `readied` as it was, so
releasing a reference never enables a decode again. -/
theorem read_close_commute (s : LoadModule FileType) :
    s.read.2 = { s with readied := s.read.2.readied }
      ∧ s.close.2 = { s with sharing := s.close.2.sharing }
      ∧ s.read.2.close.2 = s.close.2.read.2
      ∧ s.close.2.read.1 = s.read.1
      ∧ s.read.2.close.1 = s.close.1
      ∧ s.close.2.readied = s.readied := by
  obtain ⟨hashkey, hashpath, type, sharing, readied⟩ := s
  cases readied with
  | false =>
    by_cases h0 : sharing = 0
    · simp [LoadModule.read, LoadModule.close, h0]
    · simp [LoadModule.read, LoadModule.close, h0]
  | true =>
    by_cases h0 : sharing = 0
    · simp [LoadModule.read, LoadModule.close, h0]
    · simp [LoadModule.read, LoadModule.close, h0]

/-- C16: the reference count is a 16-bit unsigned counter. After 65536 shares, each an
increment modulo `2 ^ 16`, the `sharing` of a fresh loader is `0` again and the very
next `close()` returns `true`, although none of the 65536 holders has released; after
every smaller number of shares `M ≥ 1` the next `close()` returns `false`. -/
theorem sharing_wraps_at_65536 (type : FileType) (hashkey : Nat) :
    (shares 65536 (LoadModule.construct type hashkey)).sharing = 0
      ∧ (shares 65536 (LoadModule.construct type hashkey)).close.1 = true
      ∧ ∀ M, 1 ≤ M → M < 65536 →
          (shares M (LoadModule.construct type hashkey)).close.1 = false := by
  have hlt : ∀ M, M < 65536 → shares M (LoadModule.construct type hashkey)
      = { LoadModule.construct type hashkey with sharing := M } := by
    intro M hM
    rw [shares_of_lt M _ (by simp only [LoadModule.construct]; omega)]
    simp [LoadModule.construct]
  have hwrap : (shares 65536 (LoadModule.construct type hashkey)).sharing = 0 := by
    rw [shares_succ 65535, hlt 65535 (by omega)]
    simp [LoadModule.share]
  refine ⟨hwrap, (close_true_iff _).2 hwrap, fun M h1 hM => ?_⟩
  have hne : ¬ (shares M (LoadModule.construct type hashkey)).close.1 = true := by
    rw [close_true_iff, hlt M hM]
    simp only
    omega
  simpa using hne

/-- Witness of C16: after three shares the next `close()` returns `false`. -/
theorem sharing_wraps_at_65536_witness :
    1 ≤ 3 ∧ 3 < 65536
      ∧ (shares 3 (LoadModule.construct (7 : Nat) 42)).close.1 = false :=
  ⟨by decide, by decide,
    (sharing_wraps_at_65536 (7 : Nat) 42).2.2 3 (by decide) (by decide)⟩

end Claims

end ThorVG
